import Mathlib

/-!
Verification development for the `friendly_dist_manager` repository.

The definitions below are a shallow embedding of the Python sources:

* `MetadataFile` and its encoders model
  `src/friendly_dist_manager/package_formats/wheel/metadata_file.py`;
* `FS`, `add_file`, `make_dist_info`, `build` model the staging-tree and
  archive operations of
  `src/friendly_dist_manager/package_formats/wheel/wheel_file.py`.

Files are modelled as lists of byte values; machine-level hashing
(`hashlib.sha256`) is an external library, so theorems about manifests are
stated for an arbitrary digest function producing 32 bytes.  The
base64-url encoding (`base64.urlsafe_b64encode`) is embedded concretely so
that the round-trip properties of the manifest hash field can be settled.
-/

/-- UTF-8 encoding of one Unicode code point, as byte values.  Models the
encoding `pathlib.Path.write_text` applies when the model stores a text
file as bytes. -/
def utf8Bytes (c : Nat) : List Nat :=
  if c < 0x80 then [c]
  else if c < 0x800 then [0xC0 + c / 64, 0x80 + c % 64]
  else if c < 0x10000 then
    [0xE0 + c / 4096, 0x80 + (c / 64) % 64, 0x80 + c % 64]
  else
    [0xF0 + c / 262144, 0x80 + (c / 4096) % 64, 0x80 + (c / 64) % 64, 0x80 + c % 64]

/-- Byte-level contents of a text file holding string `s`. -/
def strBytes (s : String) : List Nat :=
  s.data.foldr (fun c acc => utf8Bytes c.toNat ++ acc) []

/-- The 64-character alphabet used by `base64.urlsafe_b64encode`. -/
def b64urlAlphabet : List Char :=
  ['A', 'B', 'C', 'D', 'E', 'F', 'G', 'H', 'I', 'J', 'K', 'L', 'M',
   'N', 'O', 'P', 'Q', 'R', 'S', 'T', 'U', 'V', 'W', 'X', 'Y', 'Z',
   'a', 'b', 'c', 'd', 'e', 'f', 'g', 'h', 'i', 'j', 'k', 'l', 'm',
   'n', 'o', 'p', 'q', 'r', 's', 't', 'u', 'v', 'w', 'x', 'y', 'z',
   '0', '1', '2', '3', '4', '5', '6', '7', '8', '9', '-', '_']

/-- Character of the url-safe base64 alphabet at a 6-bit index. -/
def sextetChar (n : Nat) : Char := b64urlAlphabet.getD n 'A'

/-- Inverse table lookup for the url-safe base64 alphabet. -/
def charSextet (c : Char) : Nat := b64urlAlphabet.indexOf c

/-- Big-endian regrouping of a byte stream into 6-bit values, exactly as
base64 encodes full and final partial blocks. -/
def bytesToSextets : List Nat → List Nat
  | a :: b :: c :: rest =>
    (a / 4) :: ((a % 4) * 16 + b / 16) :: ((b % 16) * 4 + c / 64) :: (c % 64) ::
      bytesToSextets rest
  | [a, b] => [a / 4, (a % 4) * 16 + b / 16, (b % 16) * 4]
  | [a] => [a / 4, (a % 4) * 16]
  | [] => []

/-- Inverse regrouping of 6-bit values back into bytes, exactly as base64
decoding reassembles full and final partial blocks. -/
def sextetsToBytes : List Nat → List Nat
  | s1 :: s2 :: s3 :: s4 :: rest =>
    (s1 * 4 + s2 / 16) :: ((s2 % 16) * 16 + s3 / 4) :: ((s3 % 4) * 64 + s4) ::
      sextetsToBytes rest
  | [s1, s2, s3] => [s1 * 4 + s2 / 16, (s2 % 16) * 16 + s3 / 4]
  | [s1, s2] => [s1 * 4 + s2 / 16]
  | _ => []

/-- Number of `=` padding characters base64 appends for a payload of `n`
bytes. -/
def b64padCount (n : Nat) : Nat :=
  match n % 3 with
  | 0 => 0
  | 1 => 2
  | _ => 1

/-- `base64.urlsafe_b64encode`, producing a padded text encoding. -/
def urlsafe_b64encode (bs : List Nat) : String :=
  String.mk ((bytesToSextets bs).map sextetChar ++
    List.replicate (b64padCount bs.length) '=')

/-- Python `str.rstrip` specialised to the `"="` character set. -/
def rstripEq (s : String) : String :=
  String.mk ((s.data.reverse.dropWhile (fun c => c == '=')).reverse)

/-- `WheelFile._sha_256`: digest the file contents (`H` stands for the
external `hashlib.sha256` digest), url-safe base64 encode, strip `=`
padding. -/
def sha_256 (H : List Nat → List Nat) (bs : List Nat) : String :=
  rstripEq (urlsafe_b64encode (H bs))

/-- Re-add `=` padding to a stripped base64 text, restoring a length that
is a multiple of four. -/
def padB64 (s : String) : String :=
  s ++ String.mk (List.replicate ((4 - s.length % 4) % 4) '=')

/-- base64-url decoding: ignore `=` padding, map characters back to 6-bit
values, regroup into bytes. -/
def b64url_decode (s : String) : List Nat :=
  sextetsToBytes ((s.data.filter (fun c => ¬ c == '=')).map charSextet)

/-- `Person` named tuple from `metadata_file.py`; the empty string models a
falsy (`None` or empty) field, matching how the encoder only ever tests
truthiness of these fields. -/
structure Person where
  name : String
  email : String
deriving DecidableEq, Repr

/-- `ProjectURL` named tuple from `metadata_file.py`. -/
structure ProjectURL where
  label : String
  url : String
deriving DecidableEq, Repr

/-- `ExtraRequirement` named tuple from `metadata_file.py`. -/
structure ExtraRequirement where
  label : String
  req : String
deriving DecidableEq, Repr

/-- In-memory state of `MetadataFile`.  Scalar optional attributes are
`Option String` (`none` models the initial `None`), mirroring the private
attributes set in `MetadataFile.__init__`. -/
structure MetadataFile where
  file_version : String
  dist_name : String
  dist_version : String
  summaryOpt : Option String
  homepageOpt : Option String
  authors : List Person
  licenseOpt : Option String
  keywords : List String
  classifiers : List String
  downloadUrlOpt : Option String
  maintainers : List Person
  requirements : List String
  python_requirements : List String
  project_urls : List ProjectURL
  extra_requirements : List ExtraRequirement
deriving DecidableEq, Repr

/-- `MetadataFile.__init__`: required name and version, every optional
attribute unset. -/
def MetadataFile.init (dist_name version : String) : MetadataFile :=
  { file_version := "2.2"
    dist_name := dist_name
    dist_version := version
    summaryOpt := none
    homepageOpt := none
    authors := []
    licenseOpt := none
    keywords := []
    classifiers := []
    downloadUrlOpt := none
    maintainers := []
    requirements := []
    python_requirements := []
    project_urls := []
    extra_requirements := [] }

/-- Python `value or ""`: the empty string whenever the stored value is
falsy (`None` or `""`), the stored string otherwise. -/
def orEmpty : Option String → String
  | none => ""
  | some v => if v = "" then "" else v

/-- Getter `MetadataFile.summary`. -/
def MetadataFile.summary (m : MetadataFile) : String := orEmpty m.summaryOpt

/-- Getter `MetadataFile.homepage`. -/
def MetadataFile.homepage (m : MetadataFile) : String := orEmpty m.homepageOpt

/-- Getter `MetadataFile.license`. -/
def MetadataFile.license (m : MetadataFile) : String := orEmpty m.licenseOpt

/-- Getter `MetadataFile.download_url`. -/
def MetadataFile.download_url (m : MetadataFile) : String := orEmpty m.downloadUrlOpt

/-- `MetadataFile._encode_user`: the `Author`/`Maintainer` line takes the
first truthy name; the email line is accumulated by the loop over all
users, quoting the name when present, and comma-joined. -/
def encode_user (user_defs : List Person) (user_key email_key : String) :
    List String :=
  let names := (user_defs.filter (fun u => ¬ u.name = "")).map Person.name
  let nameLines : List String :=
    match names with
    | [] => []
    | x :: _ => [user_key ++ ": " ++ x]
  let emails := user_defs.foldl
    (fun acc u =>
      if u.email = "" then acc
      else if ¬ u.name = "" then
        acc ++ ["\"" ++ u.name ++ "\" <" ++ u.email ++ ">"]
      else acc ++ [u.email]) []
  nameLines ++
    match emails with
    | [] => []
    | _ => [email_key ++ ": " ++ String.intercalate "," emails]

/-- Helper for stating author/maintainer email emission: the entry the
metadata encoder's loop contributes for one person. -/
def emailEntry (u : Person) : Option String :=
  if u.email = "" then none
  else if ¬ u.name = "" then some ("\"" ++ u.name ++ "\" <" ++ u.email ++ ">")
  else some u.email

/-- `MetadataFile._encode_property`: one `Key: value` line when the value
is truthy, no line otherwise. -/
def encode_property (prop_key prop_value : String) : List String :=
  if prop_value = "" then [] else [prop_key ++ ": " ++ prop_value]

/-- The list `lines` built by `MetadataFile.raw` before joining: the three
mandatory headers, then every optional section in source order.  The
Python `set` of extra-requirement labels is modelled by `List.dedup`
(one element per distinct label). -/
def rawLines (m : MetadataFile) : List String :=
  ["Metadata-Version: " ++ m.file_version,
   "Name: " ++ m.dist_name,
   "Version: " ++ m.dist_version]
  ++ encode_user m.authors "Author" "Author-email"
  ++ encode_user m.maintainers "Maintainer" "Maintainer-email"
  ++ encode_property "Summary" m.summary
  ++ encode_property "Home-page" m.homepage
  ++ encode_property "License" m.license
  ++ encode_property "Keywords" (String.intercalate "," m.keywords)
  ++ encode_property "Download-url" m.download_url
  ++ m.project_urls.map (fun u =>
      "Project-URL: " ++ (if ¬ u.label = "" then u.label ++ ", " ++ u.url else u.url))
  ++ m.classifiers.map (fun c => "Classifier: " ++ c)
  ++ m.python_requirements.map (fun r => "Requires-Python: " ++ r)
  ++ ((m.extra_requirements.map ExtraRequirement.label).dedup.map
      (fun l => "Provides-Extra: " ++ l))
  ++ m.extra_requirements.map (fun e =>
      "Requires-Dist: " ++ e.req ++ "; extra == '" ++ e.label ++ "'")
  ++ m.requirements.map (fun r => "Requires-Dist: " ++ r)

/-- `MetadataFile.raw`: the newline-joined metadata text. -/
def MetadataFile.raw (m : MetadataFile) : String :=
  String.intercalate "\n" (rawLines m)

/-- The staging tree (`WheelFile._temp_dir`): regular files as
archive-relative component paths with byte contents (insertion-ordered,
standing in for the `glob` enumeration order), plus the set of existing
directories.  The temporary root is the empty path. -/
structure FS where
  dirs : List (List String)
  files : List (List String × List Nat)
deriving DecidableEq, Repr

/-- The fresh temporary directory: only the root exists. -/
def FS.empty : FS := { dirs := [[]], files := [] }

/-- `Path.is_dir` inside the staging tree. -/
def isDir (fs : FS) (p : List String) : Bool :=
  fs.dirs.any (fun q => q == p)

/-- Whether `p` is a staged regular file. -/
def isFile (fs : FS) (p : List String) : Bool :=
  fs.files.any (fun e => e.1 == p)

/-- `Path.exists` inside the staging tree. -/
def pathExists (fs : FS) (p : List String) : Bool :=
  isDir fs p || isFile fs p

/-- Contents of the staged regular file at `p`, if any. -/
def getFile (fs : FS) (p : List String) : Option (List Nat) :=
  (fs.files.find? (fun e => e.1 == p)).map Prod.snd

/-- Write file contents at `p`: replace an existing entry in place, else
append a new entry. -/
def setFile (fs : FS) (p : List String) (bs : List Nat) : FS :=
  if isFile fs p then
    { fs with files := fs.files.map (fun e => if e.1 == p then (p, bs) else e) }
  else
    { fs with files := fs.files ++ [(p, bs)] }

/-- Every initial segment of `p`, from the root up to `p` itself. -/
def segmentsOf (p : List String) : List (List String) :=
  (List.range (p.length + 1)).map (fun n => p.take n)

/-- `Path.mkdir(parents=True)`: fails when the path already exists or when
a regular file blocks the path, otherwise creates every missing
directory along the path. -/
def mkdir_parents (fs : FS) (p : List String) : Except String FS :=
  if pathExists fs p then .error "FileExistsError"
  else if (segmentsOf p).any (fun q => isFile fs q) then
    .error "NotADirectoryError"
  else
    .ok { fs with dirs := fs.dirs ++ (segmentsOf p).filter (fun q => ¬ isDir fs q) }

/-- `shutil.copy(src, dst)` restricted to what the model tracks: a
directory destination receives the file under the source's base name; a
regular-file destination is overwritten in place; otherwise the copy
lands at `dst` when its parent directory exists. -/
def shutil_copy (fs : FS) (srcBase : String) (srcBytes : List Nat)
    (dst : List String) : Except String FS :=
  if isDir fs dst then
    if isDir fs (dst ++ [srcBase]) then .error "IsADirectoryError"
    else .ok (setFile fs (dst ++ [srcBase]) srcBytes)
  else if isFile fs dst then .ok (setFile fs dst srcBytes)
  else if isDir fs dst.dropLast then .ok (setFile fs dst srcBytes)
  else .error "FileNotFoundError"

/-- `WheelFile.add_file`: ensure the target directory exists (creating
parents when the target is absent), then copy the source file into it. -/
def add_file (fs : FS) (srcBase : String) (srcBytes : List Nat)
    (target_path : List String) : Except String FS :=
  if pathExists fs target_path then
    shutil_copy fs srcBase srcBytes target_path
  else
    match mkdir_parents fs target_path with
    | .error e => .error e
    | .ok fs1 => shutil_copy fs1 srcBase srcBytes target_path

/-- State of a `WheelFile` object (tags, purity flag and metadata); the
staging tree is passed separately to the operations that touch it. -/
structure WheelFile where
  file_version : String
  python_tag : String
  abi_tag : String
  platform_tag : String
  build_tag : Option String
  is_pure : Bool
  metadata : MetadataFile
deriving DecidableEq, Repr

/-- `WheelFile.__init__`. -/
def WheelFile.init (dist_name version : String) : WheelFile :=
  { file_version := "1.0"
    python_tag := "py3"
    abi_tag := "none"
    platform_tag := "any"
    build_tag := none
    is_pure := true
    metadata := MetadataFile.init dist_name version }

/-- `WheelFile.filename`: the canonical archive name. -/
def filename (w : WheelFile) : String :=
  (w.metadata.dist_name ++ "-" ++ w.metadata.dist_version) ++
    (match w.build_tag with
     | none => ""
     | some b => "-" ++ b) ++
    "-" ++ w.python_tag ++ "-" ++ w.abi_tag ++ "-" ++ w.platform_tag ++ ".whl"

/-- The WHEEL descriptor text after `_clean_data` (blank lines removed,
common indentation stripped); `genName` and `genVersion` stand for the
generator package name and its imported version. -/
def wheel_data (w : WheelFile) (genName genVersion : String) : String :=
  "Wheel-Version: " ++ w.file_version ++ "\n" ++
  "Generator: " ++ genName ++ " (" ++ genVersion ++ ")\n" ++
  "Root-Is-Purelib: " ++ (if w.is_pure then "True" else "False") ++ "\n" ++
  "Tag: " ++ w.python_tag ++ "-" ++ w.abi_tag ++ "-" ++ w.platform_tag ++ "\n"

/-- Rendering of a relative path, as `Path.relative_to` prints it. -/
def pathStr (p : List String) : String := String.intercalate "/" p

/-- One data line of the RECORD manifest for a staged regular file. -/
def recordLine (H : List Nat → List Nat) (p : List String) (bs : List Nat) :
    String :=
  pathStr p ++ "," ++ "sha256=" ++ sha_256 H bs ++ "," ++ toString bs.length ++ "\n"

/-- Name of the `dist-info` directory for a wheel. -/
def infoDirName (w : WheelFile) : String :=
  w.metadata.dist_name ++ "-" ++ w.metadata.dist_version ++ ".dist-info"

/-- `WheelFile._make_dist_info`: create the dist-info directory, write the
WHEEL and METADATA members, then walk every regular file of the tree to
produce the RECORD manifest, append the manifest's own line with empty
hash and size fields, and write RECORD last. -/
def make_dist_info (H : List Nat → List Nat) (genName genVersion : String)
    (w : WheelFile) (fs : FS) : Except String FS :=
  let info_dir := [infoDirName w]
  let wheel_path := info_dir ++ ["WHEEL"]
  let meta_path := info_dir ++ ["METADATA"]
  let record_path := info_dir ++ ["RECORD"]
  match mkdir_parents fs info_dir with
  | .error e => .error e
  | .ok fs1 =>
    let fs2 := setFile fs1 wheel_path (strBytes (wheel_data w genName genVersion))
    let fs3 := setFile fs2 meta_path (strBytes w.metadata.raw)
    let record_data :=
      String.join (fs3.files.map (fun e => recordLine H e.1 e.2)) ++
        pathStr record_path ++ ",," ++ "\n"
    .ok (setFile fs3 record_path (strBytes record_data))

/-- `WheelFile.build`: fail when the computed archive name already exists
in the destination directory; otherwise construct the dist-info members
and archive every regular file of the staged tree, returning the updated
staging tree, the destination directory listing and the archive name. -/
def build (H : List Nat → List Nat) (genName genVersion : String)
    (w : WheelFile) (fs : FS) (outputDir : List String) :
    Except String (FS × List String × String) :=
  let output_file := filename w
  if outputDir.any (fun f => f == output_file) then
    .error ("File already exists: " ++ output_file)
  else
    match make_dist_info H genName genVersion w fs with
    | .error e => .error e
    | .ok fs1 => .ok (fs1, outputDir ++ [output_file], output_file)

/-- Archive-relative path of the RECORD manifest for a wheel. -/
def recPathOf (w : WheelFile) : List String := [infoDirName w, "RECORD"]

/-- The metadata lines emitted before the `Provides-Extra` section, in
source order (used to state where the extras sections sit). -/
def linesBeforeExtras (m : MetadataFile) : List String :=
  ["Metadata-Version: " ++ m.file_version,
   "Name: " ++ m.dist_name,
   "Version: " ++ m.dist_version]
  ++ encode_user m.authors "Author" "Author-email"
  ++ encode_user m.maintainers "Maintainer" "Maintainer-email"
  ++ encode_property "Summary" m.summary
  ++ encode_property "Home-page" m.homepage
  ++ encode_property "License" m.license
  ++ encode_property "Keywords" (String.intercalate "," m.keywords)
  ++ encode_property "Download-url" m.download_url
  ++ m.project_urls.map (fun u =>
      "Project-URL: " ++ (if ¬ u.label = "" then u.label ++ ", " ++ u.url else u.url))
  ++ m.classifiers.map (fun c => "Classifier: " ++ c)
  ++ m.python_requirements.map (fun r => "Requires-Python: " ++ r)

/-- The metadata lines emitted before the scalar optional-field section
(used to state where the scalar fields and keywords sit). -/
def linesScalarHead (m : MetadataFile) : List String :=
  ["Metadata-Version: " ++ m.file_version,
   "Name: " ++ m.dist_name,
   "Version: " ++ m.dist_version]
  ++ encode_user m.authors "Author" "Author-email"
  ++ encode_user m.maintainers "Maintainer" "Maintainer-email"

/-- The metadata lines emitted after the scalar optional-field section,
in source order. -/
def linesScalarTail (m : MetadataFile) : List String :=
  m.project_urls.map (fun u =>
      "Project-URL: " ++ (if ¬ u.label = "" then u.label ++ ", " ++ u.url else u.url))
  ++ m.classifiers.map (fun c => "Classifier: " ++ c)
  ++ m.python_requirements.map (fun r => "Requires-Python: " ++ r)
  ++ ((m.extra_requirements.map ExtraRequirement.label).dedup.map
      (fun l => "Provides-Extra: " ++ l))
  ++ m.extra_requirements.map (fun e =>
      "Requires-Dist: " ++ e.req ++ "; extra == '" ++ e.label ++ "'")
  ++ m.requirements.map (fun r => "Requires-Dist: " ++ r)

/-- A metadata record with every scalar optional field and the keyword
list populated (concrete input for the optional-field ordering claim). -/
def c7meta : MetadataFile :=
  { MetadataFile.init "n" "1" with
    summaryOpt := some "s"
    homepageOpt := some "h"
    licenseOpt := some "l"
    downloadUrlOpt := some "d"
    keywords := ["k"] }

/-- Result of dist-info construction on the empty staging tree for a
concrete wheel and a fixed digest function (concrete input for the
manifest-shape claim). -/
def c1result : FS :=
  match make_dist_info (fun _ => List.replicate 32 0) "friendly_dist_manager"
      "0.0.1" (WheelFile.init "MyDist" "1.0") FS.empty with
  | .ok fsOut => fsOut
  | .error _ => FS.empty

/-! ## Base64 lemmas -/

theorem charSextet_sextetChar : ∀ n < 64, charSextet (sextetChar n) = n := by
  decide

theorem sextetChar_ne_eq : ∀ n < 64, (sextetChar n == '=') = false := by
  decide

theorem bytesToSextets_lt :
    ∀ bs : List Nat, (∀ x ∈ bs, x < 256) → ∀ s ∈ bytesToSextets bs, s < 64
  | [], _ => by simp [bytesToSextets]
  | [a], h => by
    have ha := h a (by simp)
    simp only [bytesToSextets, List.mem_cons, List.not_mem_nil, or_false]
    rintro s (rfl | rfl) <;> omega
  | [a, b], h => by
    have ha := h a (by simp)
    have hb := h b (by simp)
    simp only [bytesToSextets, List.mem_cons, List.not_mem_nil, or_false]
    rintro s (rfl | rfl | rfl) <;> omega
  | a :: b :: c :: rest, h => by
    have ha := h a (by simp)
    have hb := h b (by simp)
    have hc := h c (by simp)
    have ih := bytesToSextets_lt rest (fun x hx => h x (by simp [hx]))
    simp only [bytesToSextets, List.mem_cons]
    rintro s (rfl | rfl | rfl | rfl | hs)
    · omega
    · omega
    · omega
    · omega
    · exact ih s hs

theorem sextetsToBytes_bytesToSextets :
    ∀ bs : List Nat, (∀ x ∈ bs, x < 256) →
      sextetsToBytes (bytesToSextets bs) = bs
  | [], _ => rfl
  | [a], _ => by
    simp only [bytesToSextets, sextetsToBytes, List.cons.injEq, and_true]
    omega
  | [a, b], h => by
    have hb := h b (by simp)
    simp only [bytesToSextets, sextetsToBytes, List.cons.injEq, and_true]
    constructor <;> omega
  | a :: b :: c :: rest, h => by
    have hb := h b (by simp)
    have hc := h c (by simp)
    have ih := sextetsToBytes_bytesToSextets rest (fun x hx => h x (by simp [hx]))
    simp only [bytesToSextets, sextetsToBytes, List.cons.injEq]
    refine ⟨by omega, by omega, by omega, ih⟩

theorem dropWhile_of_forall_false {p : Char → Bool} :
    ∀ l : List Char, (∀ c ∈ l, p c = false) → l.dropWhile p = l
  | [], _ => rfl
  | c :: cs, h => by
    simp [List.dropWhile, h c (by simp)]

theorem dropWhile_replicate_append (k : Nat) (l : List Char) :
    (List.replicate k '=' ++ l).dropWhile (fun c => c == '=') =
      l.dropWhile (fun c => c == '=') := by
  induction k with
  | zero => rfl
  | succ n ih => simp [List.replicate_succ, List.dropWhile, ih]

/-- Stripping the `=` padding from a url-safe base64 encoding leaves
exactly the alphabet characters of the payload. -/
theorem rstripEq_urlsafe_b64encode (bs : List Nat) (h : ∀ x ∈ bs, x < 256) :
    rstripEq (urlsafe_b64encode bs) =
      String.mk ((bytesToSextets bs).map sextetChar) := by
  have hchars : ∀ c ∈ (bytesToSextets bs).map sextetChar, (c == '=') = false := by
    intro c hc
    rcases List.mem_map.mp hc with ⟨s, hs, rfl⟩
    exact sextetChar_ne_eq s (bytesToSextets_lt bs h s hs)
  unfold rstripEq urlsafe_b64encode
  simp only [String.data]
  rw [List.reverse_append, List.reverse_replicate, dropWhile_replicate_append,
    dropWhile_of_forall_false _ (fun c hc => hchars c (List.mem_reverse.mp hc)),
    List.reverse_reverse]

/-- Re-adding `=` padding and base64-url-decoding recovers the original
bytes from a stripped url-safe base64 encoding. -/
theorem b64_roundtrip (bs : List Nat) (h : ∀ x ∈ bs, x < 256) :
    b64url_decode (padB64 (rstripEq (urlsafe_b64encode bs))) = bs := by
  rw [rstripEq_urlsafe_b64encode bs h]
  have hchars : ∀ c ∈ (bytesToSextets bs).map sextetChar, (c == '=') = false := by
    intro c hc
    rcases List.mem_map.mp hc with ⟨s, hs, rfl⟩
    exact sextetChar_ne_eq s (bytesToSextets_lt bs h s hs)
  unfold b64url_decode padB64
  have hdata : (String.mk ((bytesToSextets bs).map sextetChar) ++
      String.mk (List.replicate ((4 - (String.mk ((bytesToSextets bs).map sextetChar)).length % 4) % 4) '=')).data =
      (bytesToSextets bs).map sextetChar ++
        List.replicate ((4 - (String.mk ((bytesToSextets bs).map sextetChar)).length % 4) % 4) '=' := rfl
  rw [hdata, List.filter_append]
  have hfilter1 : ((bytesToSextets bs).map sextetChar).filter
      (fun c => ¬ c == '=') = (bytesToSextets bs).map sextetChar := by
    apply List.filter_eq_self.mpr
    intro c hc
    simp [hchars c hc]
  have hfilter2 : ∀ k : Nat, (List.replicate k '=').filter (fun c => ¬ c == '=') = [] := by
    intro k
    induction k with
    | zero => rfl
    | succ n ih => simp [List.replicate_succ, List.filter, ih]
  rw [hfilter1, hfilter2, List.append_nil, List.map_map]
  have hmap : ((bytesToSextets bs).map (charSextet ∘ sextetChar)) = bytesToSextets bs := by
    have h1 : ((bytesToSextets bs).map (charSextet ∘ sextetChar)) =
        (bytesToSextets bs).map id :=
      List.map_congr_left
        (fun s hs => charSextet_sextetChar s (bytesToSextets_lt bs h s hs))
    rw [h1, List.map_id]
  rw [hmap]
  exact sextetsToBytes_bytesToSextets bs h

/-! ## Staging-tree lemmas -/

theorem isFile_iff_mem (fs : FS) (p : List String) :
    isFile fs p = true ↔ p ∈ fs.files.map Prod.fst := by
  simp [isFile, List.any_eq_true, List.mem_map]

theorem setFile_dirs (fs : FS) (p : List String) (bs : List Nat) :
    (setFile fs p bs).dirs = fs.dirs := by
  unfold setFile
  split <;> rfl

theorem setFile_files_fresh (fs : FS) (p : List String) (bs : List Nat)
    (h : isFile fs p = false) :
    (setFile fs p bs).files = fs.files ++ [(p, bs)] := by
  unfold setFile
  rw [if_neg (by simp [h])]

theorem find?_append_fresh (p : List String) (bs : List Nat) :
    ∀ l : List (List String × List Nat), (∀ e ∈ l, ¬ e.1 = p) →
      (l ++ [(p, bs)]).find? (fun e => e.1 == p) = some (p, bs)
  | [], _ => by simp [List.find?]
  | a :: l, h => by
    have ha : (a.1 == p) = false := by
      simp [h a (by simp)]
    simp only [List.cons_append, List.find?, ha]
    exact find?_append_fresh p bs l (fun e he => h e (by simp [he]))

theorem find?_replace (p : List String) (bs : List Nat) :
    ∀ l : List (List String × List Nat), (∃ e ∈ l, e.1 = p) →
      (l.map (fun e => if e.1 == p then (p, bs) else e)).find?
        (fun e => e.1 == p) = some (p, bs)
  | [], h => by simp at h
  | a :: l, h => by
    by_cases ha : a.1 = p
    · have hhead : (if (a.1 == p) = true then (p, bs) else a) = (p, bs) :=
        if_pos (by simp [ha])
      rw [List.map_cons, hhead, List.find?_cons_of_pos _ (by simp)]
    · have hhead : (if (a.1 == p) = true then (p, bs) else a) = a :=
        if_neg (by simp [ha])
      rw [List.map_cons, hhead, List.find?_cons_of_neg _ (by simp [ha])]
      apply find?_replace p bs l
      rcases h with ⟨e, he, hep⟩
      rcases List.mem_cons.mp he with rfl | hmem
      · exact absurd hep ha
      · exact ⟨e, hmem, hep⟩

theorem getFile_setFile (fs : FS) (p : List String) (bs : List Nat) :
    getFile (setFile fs p bs) p = some bs := by
  by_cases hf : isFile fs p
  · unfold getFile setFile
    rw [if_pos hf]
    have hmem : p ∈ fs.files.map Prod.fst := (isFile_iff_mem fs p).mp hf
    rcases List.mem_map.mp hmem with ⟨e, he, hep⟩
    rw [find?_replace p bs fs.files ⟨e, he, hep⟩]
    rfl
  · unfold getFile
    rw [setFile_files_fresh fs p bs (by simp at hf; simp [hf])]
    rw [find?_append_fresh p bs fs.files]
    · rfl
    · intro e he hep
      exact hf ((isFile_iff_mem fs p).mpr (List.mem_map.mpr ⟨e, he, hep⟩))

theorem encode_user_email_fold :
    ∀ (users : List Person) (acc : List String),
      users.foldl
        (fun acc u =>
          if u.email = "" then acc
          else if ¬ u.name = "" then
            acc ++ ["\"" ++ u.name ++ "\" <" ++ u.email ++ ">"]
          else acc ++ [u.email]) acc = acc ++ users.filterMap emailEntry
  | [], acc => by simp
  | u :: us, acc => by
    by_cases he : u.email = ""
    · simp only [List.foldl, if_pos he, List.filterMap_cons, emailEntry, he,
        if_pos rfl]
      exact encode_user_email_fold us acc
    · by_cases hn : u.name = ""
      · simp only [List.foldl, if_neg he, hn, not_true, if_false,
          List.filterMap_cons, emailEntry, if_neg he, if_pos hn]
        rw [encode_user_email_fold us (acc ++ [u.email])]
        simp
      · simp only [List.foldl, if_neg he, hn, not_false_iff, if_true,
          List.filterMap_cons, emailEntry, if_neg he, if_neg hn]
        rw [encode_user_email_fold us (acc ++ ["\"" ++ u.name ++ "\" <" ++ u.email ++ ">"])]
        simp

/-! ## Claim theorems -/

/-- C4: for every metadata record with a name and a version and all
optional fields left unset, the encoded metadata text consists of exactly
the three mandatory header lines — file-format version, Name, Version —
in that order and nothing else, with no trailing blank line. -/
theorem c4_minimal_metadata_exactly_three_lines (n v : String) :
    rawLines (MetadataFile.init n v) =
      ["Metadata-Version: 2.2", "Name: " ++ n, "Version: " ++ v]
    ∧ (MetadataFile.init n v).raw =
      "Metadata-Version: 2.2" ++ "\n" ++ ("Name: " ++ n) ++ "\n" ++
        ("Version: " ++ v) := by
  constructor
  · rfl
  · rfl

/-- C9: for each scalar optional field (summary, homepage, license,
download URL), assigning the empty string is observationally equivalent
to never assigning the field: the getter returns the empty string in both
cases, and the encoder emits the same lines in both cases. -/
theorem c9_empty_scalar_equals_unset (m : MetadataFile) :
    (MetadataFile.summary { m with summaryOpt := some "" } = "" ∧
     MetadataFile.summary { m with summaryOpt := none } = "" ∧
     rawLines { m with summaryOpt := some "" } =
       rawLines { m with summaryOpt := none }) ∧
    (MetadataFile.homepage { m with homepageOpt := some "" } = "" ∧
     MetadataFile.homepage { m with homepageOpt := none } = "" ∧
     rawLines { m with homepageOpt := some "" } =
       rawLines { m with homepageOpt := none }) ∧
    (MetadataFile.license { m with licenseOpt := some "" } = "" ∧
     MetadataFile.license { m with licenseOpt := none } = "" ∧
     rawLines { m with licenseOpt := some "" } =
       rawLines { m with licenseOpt := none }) ∧
    (MetadataFile.download_url { m with downloadUrlOpt := some "" } = "" ∧
     MetadataFile.download_url { m with downloadUrlOpt := none } = "" ∧
     rawLines { m with downloadUrlOpt := some "" } =
       rawLines { m with downloadUrlOpt := none }) := by
  refine ⟨⟨rfl, rfl, ?_⟩, ⟨rfl, rfl, ?_⟩, ⟨rfl, rfl, ?_⟩, ⟨rfl, rfl, ?_⟩⟩ <;> rfl

/-- C6: the encoded output carries exactly one `Provides-Extra` line per
distinct extra-requirement group label (duplicates collapsed, set
semantics), while it carries one `Requires-Dist ...; extra == 'label'`
line per individual extra-requirement entry. -/
theorem c6_provides_extra_collapsed_requires_per_entry (m : MetadataFile) :
    rawLines m =
      linesBeforeExtras m
        ++ ((m.extra_requirements.map ExtraRequirement.label).dedup.map
            (fun l => "Provides-Extra: " ++ l))
        ++ (m.extra_requirements.map (fun e =>
            "Requires-Dist: " ++ e.req ++ "; extra == '" ++ e.label ++ "'"))
        ++ (m.requirements.map (fun r => "Requires-Dist: " ++ r))
    ∧ ((m.extra_requirements.map ExtraRequirement.label).dedup).Nodup
    ∧ (∀ l, l ∈ (m.extra_requirements.map ExtraRequirement.label).dedup ↔
        ∃ e ∈ m.extra_requirements, e.label = l) := by
  refine ⟨?_, List.nodup_dedup _, ?_⟩
  · simp [rawLines, linesBeforeExtras, List.append_assoc]
  · intro l
    simp [List.mem_dedup, List.mem_map]

theorem intercalate_singleton (a : String) : String.intercalate "," [a] = a := rfl

/-- Characterisation of `_encode_user`: the name line comes from the
first user with a truthy name, the email line comma-joins the entries of
exactly the users that have an email. -/
theorem encode_user_eq (users : List Person) (uk ek : String) :
    encode_user users uk ek =
      (match (users.filter (fun u => ¬ u.name = "")).map Person.name with
       | [] => ([] : List String)
       | x :: _ => [uk ++ ": " ++ x]) ++
      (match users.filterMap emailEntry with
       | [] => ([] : List String)
       | _ => [ek ++ ": " ++ String.intercalate "," (users.filterMap emailEntry)]) := by
  simp only [encode_user]
  rw [encode_user_email_fold users []]
  simp only [List.nil_append]

/-- C5: Author and Author-email lines are emitted independently — an
author with only an email yields only the email line, one with only a
name yields only the name line, one with both contributes the quoted
form to the email line; the name line's value is the first author in
list order with a truthy name, and the email line comma-joins the
entries of all authors that have an email, skipping the rest. -/
theorem c5_author_email_independence (uk ek n e : String) (users : List Person) :
    (¬ e = "" → encode_user [⟨"", e⟩] uk ek = [ek ++ ": " ++ e])
    ∧ (¬ n = "" → encode_user [⟨n, ""⟩] uk ek = [uk ++ ": " ++ n])
    ∧ (¬ n = "" → ¬ e = "" →
        encode_user [⟨n, e⟩] uk ek =
          [uk ++ ": " ++ n, ek ++ ": " ++ ("\"" ++ n ++ "\" <" ++ e ++ ">")])
    ∧ (∀ u us, users.filter (fun x => ¬ x.name = "") = u :: us →
        (encode_user users uk ek).head? = some (uk ++ ": " ++ u.name))
    ∧ (users.filterMap emailEntry ≠ [] →
        (ek ++ ": " ++ String.intercalate "," (users.filterMap emailEntry)) ∈
          encode_user users uk ek) := by
  refine ⟨?_, ?_, ?_, ?_, ?_⟩
  · intro he
    rw [encode_user_eq]
    simp [emailEntry, he, intercalate_singleton]
  · intro hn
    rw [encode_user_eq]
    simp [emailEntry, hn]
  · intro hn he
    rw [encode_user_eq]
    simp [emailEntry, hn, he, intercalate_singleton]
  · intro u us hf
    rw [encode_user_eq, hf]
    simp
  · intro hne
    rw [encode_user_eq]
    cases hfm : users.filterMap emailEntry with
    | nil => exact absurd hfm hne
    | cons a l => simp

/-- Witness for C5 at a concrete author list. -/
theorem c5_author_email_independence_witness :
    (¬ "a@b.c" = "" →
      encode_user [⟨"", "a@b.c"⟩] "Author" "Author-email" =
        ["Author-email: " ++ "a@b.c"])
    ∧ (¬ "Jane" = "" →
      encode_user [⟨"Jane", ""⟩] "Author" "Author-email" =
        ["Author: " ++ "Jane"])
    ∧ (¬ "Jane" = "" → ¬ "a@b.c" = "" →
        encode_user [⟨"Jane", "a@b.c"⟩] "Author" "Author-email" =
          ["Author: " ++ "Jane",
           "Author-email: " ++ ("\"" ++ "Jane" ++ "\" <" ++ "a@b.c" ++ ">")])
    ∧ (∀ u us,
        (([⟨"", "x@y.z"⟩, ⟨"Jane", "a@b.c"⟩] : List Person).filter
          (fun x => ¬ x.name = "")) = u :: us →
        (encode_user [⟨"", "x@y.z"⟩, ⟨"Jane", "a@b.c"⟩] "Author" "Author-email").head? =
          some ("Author" ++ ": " ++ u.name))
    ∧ (([⟨"", "x@y.z"⟩, ⟨"Jane", "a@b.c"⟩] : List Person).filterMap emailEntry ≠ [] →
        ("Author-email" ++ ": " ++ String.intercalate ","
            (([⟨"", "x@y.z"⟩, ⟨"Jane", "a@b.c"⟩] : List Person).filterMap emailEntry)) ∈
          encode_user [⟨"", "x@y.z"⟩, ⟨"Jane", "a@b.c"⟩] "Author" "Author-email") := by
  have h := c5_author_email_independence "Author" "Author-email" "Jane" "a@b.c"
    [⟨"", "x@y.z"⟩, ⟨"Jane", "a@b.c"⟩]
  refine ⟨fun he => ?_, h.2.1, h.2.2.1, h.2.2.2.1, h.2.2.2.2⟩
  exact h.1 he

/-- C7 counterexample: with all four scalar optional fields and a keyword
set, the encoder emits the Keywords line BEFORE the Download-url line
(positions 6 and 7), so the download-URL line does not precede the
Keywords line as claimed. -/
theorem c7_scalar_then_keywords_counterexample :
    rawLines c7meta =
      ["Metadata-Version: 2.2", "Name: n", "Version: 1", "Summary: s",
       "Home-page: h", "License: l", "Keywords: k", "Download-url: d"]
    ∧ (rawLines c7meta).indexOf "Keywords: k" = 6
    ∧ (rawLines c7meta).indexOf "Download-url: d" = 7 := by
  refine ⟨by decide, by decide, by decide⟩

/-- C7 (amended): when all four scalar optional fields and the keyword
collection are set, the encoder emits `Summary`, `Home-page` and
`License` contiguously, then the `Keywords` line, then the
`Download-url` line — the download-URL line FOLLOWS the Keywords line
rather than preceding it. -/
theorem c7_scalar_field_order_amended (m : MetadataFile)
    (hs : ¬ m.summary = "") (hh : ¬ m.homepage = "") (hl : ¬ m.license = "")
    (hk : ¬ String.intercalate "," m.keywords = "")
    (hd : ¬ m.download_url = "") :
    rawLines m =
      linesScalarHead m ++
        ["Summary: " ++ m.summary,
         "Home-page: " ++ m.homepage,
         "License: " ++ m.license,
         "Keywords: " ++ String.intercalate "," m.keywords,
         "Download-url: " ++ m.download_url] ++
        linesScalarTail m := by
  simp [rawLines, linesScalarHead, linesScalarTail, encode_property,
    hs, hh, hl, hk, hd, List.append_assoc]

/-- Witness for the amended C7 at a concrete record. -/
theorem c7_scalar_field_order_amended_witness :
    rawLines c7meta =
      linesScalarHead c7meta ++
        ["Summary: " ++ c7meta.summary,
         "Home-page: " ++ c7meta.homepage,
         "License: " ++ c7meta.license,
         "Keywords: " ++ String.intercalate "," c7meta.keywords,
         "Download-url: " ++ c7meta.download_url] ++
        linesScalarTail c7meta :=
  c7_scalar_field_order_amended c7meta (by decide) (by decide) (by decide)
    (by decide) (by decide)

/-- C3: when a file with the computed canonical archive name already
exists in the destination directory, `build` raises the already-exists
error immediately — no dist-info members are written and no archive is
produced (the error is returned before any state is changed). -/
theorem c3_build_existing_archive_fails (H : List Nat → List Nat)
    (genName genVersion : String) (w : WheelFile) (fs : FS)
    (outputDir : List String) (h : filename w ∈ outputDir) :
    build H genName genVersion w fs outputDir =
      .error ("File already exists: " ++ filename w) := by
  have hc : (outputDir.any (fun f => f == filename w)) = true :=
    List.any_eq_true.mpr ⟨filename w, h, by simp⟩
  simp [build, hc]

/-- Witness for C3 at a concrete wheel and destination listing. -/
theorem c3_build_existing_archive_fails_witness :
    build (fun _ => List.replicate 32 0) "friendly_dist_manager" "0.0.1"
        (WheelFile.init "MyDist" "1.0") FS.empty
        ["MyDist-1.0-py3-none-any.whl"] =
      .error ("File already exists: " ++ filename (WheelFile.init "MyDist" "1.0")) :=
  c3_build_existing_archive_fails (fun _ => List.replicate 32 0)
    "friendly_dist_manager" "0.0.1" (WheelFile.init "MyDist" "1.0") FS.empty
    ["MyDist-1.0-py3-none-any.whl"] (by decide)

/-- C2: a manifest data line records the hash field as `sha256=` followed
by the padding-stripped base64-url encoding of the digest, and the size
field as the file's exact byte count; re-adding `=` padding and
base64-url-decoding the encoded hash recovers the 32-byte digest
exactly. -/
theorem c2_manifest_hash_roundtrip (H : List Nat → List Nat)
    (p : List String) (bs : List Nat)
    (_hlen : (H bs).length = 32) (hbytes : ∀ x ∈ H bs, x < 256) :
    recordLine H p bs =
      pathStr p ++ "," ++ "sha256=" ++ sha_256 H bs ++ "," ++
        toString bs.length ++ "\n"
    ∧ b64url_decode (padB64 (sha_256 H bs)) = H bs := by
  constructor
  · rfl
  · show b64url_decode (padB64 (rstripEq (urlsafe_b64encode (H bs)))) = H bs
    exact b64_roundtrip (H bs) hbytes

/-- Witness for C2 at a concrete digest and file. -/
theorem c2_manifest_hash_roundtrip_witness :
    ((List.replicate 32 0 : List Nat).length = 32)
    ∧ b64url_decode (padB64 (sha_256 (fun _ => List.replicate 32 0) [1, 2, 3])) =
        List.replicate 32 0 :=
  ⟨by decide,
   (c2_manifest_hash_roundtrip (fun _ => List.replicate 32 0) ["pkg", "mod.py"]
     [1, 2, 3] (by decide) (by decide)).2⟩

/-- C8: staging the same archive-relative path twice with different
contents succeeds both times and silently overwrites — after both calls
the staged file holds the second contents (last write wins), the first
call having stored the first contents. -/
theorem c8_restage_last_write_wins (fs : FS) (n : String)
    (b1 b2 : List Nat) (T : List String)
    (hdir : isDir fs T = true) (hnd : isDir fs (T ++ [n]) = false) :
    (add_file fs n b1 T).bind (fun fs1 => add_file fs1 n b2 T) =
      .ok (setFile (setFile fs (T ++ [n]) b1) (T ++ [n]) b2)
    ∧ getFile (setFile fs (T ++ [n]) b1) (T ++ [n]) = some b1
    ∧ getFile (setFile (setFile fs (T ++ [n]) b1) (T ++ [n]) b2) (T ++ [n]) =
        some b2 := by
  have hd1 : isDir (setFile fs (T ++ [n]) b1) T = true := by
    unfold isDir
    rw [setFile_dirs]
    exact hdir
  have hn1 : isDir (setFile fs (T ++ [n]) b1) (T ++ [n]) = false := by
    unfold isDir
    rw [setFile_dirs]
    exact hnd
  refine ⟨?_, getFile_setFile fs (T ++ [n]) b1,
    getFile_setFile (setFile fs (T ++ [n]) b1) (T ++ [n]) b2⟩
  unfold add_file pathExists shutil_copy
  simp [hdir, hnd, hd1, hn1, Except.bind]

/-- Witness for C8 on the empty staging tree at the root directory. -/
theorem c8_restage_last_write_wins_witness :
    (add_file FS.empty "f.txt" [1] []).bind
        (fun fs1 => add_file fs1 "f.txt" [2] []) =
      .ok (setFile (setFile FS.empty (["f.txt"]) [1]) (["f.txt"]) [2])
    ∧ getFile (setFile FS.empty (["f.txt"]) [1]) (["f.txt"]) = some [1]
    ∧ getFile (setFile (setFile FS.empty (["f.txt"]) [1]) (["f.txt"]) [2])
        (["f.txt"]) = some [2] :=
  c8_restage_last_write_wins FS.empty "f.txt" [1] [2] [] (by decide) (by decide)

theorem self_mem_segmentsOf (p : List String) : p ∈ segmentsOf p := by
  unfold segmentsOf
  exact List.mem_map.mpr ⟨p.length, by simp, by simp⟩

theorem length_le_of_mem_segmentsOf {q p : List String}
    (h : q ∈ segmentsOf p) : q.length ≤ p.length := by
  unfold segmentsOf at h
  rcases List.mem_map.mp h with ⟨i, _, rfl⟩
  simp [List.length_take]

/-- C10 counterexample: starting from the empty staging tree, stage
`f.txt` at the root, then stage `g.txt` with target path `f.txt` (a path
already occupied by a staged regular file).  The second call succeeds but
the file is NOT placed at `f.txt/g.txt`; instead the staged file at
`f.txt` itself is overwritten with the new contents. -/
theorem c10_add_file_placement_counterexample :
    (add_file FS.empty "f.txt" [1] []).bind
        (fun fs1 => add_file fs1 "g.txt" [2] ["f.txt"]) =
      .ok { dirs := [[]], files := [(["f.txt"], [2])] }
    ∧ getFile { dirs := [[]], files := [(["f.txt"], [2])] } ["f.txt", "g.txt"] =
        none
    ∧ getFile { dirs := [[]], files := [(["f.txt"], [2])] } ["f.txt"] =
        some [2] := by
  refine ⟨rfl, rfl, rfl⟩

/-- C10 (amended): a staging call with source base name `n` and target
path `T` places the file at `T` joined with `n` — the interface cannot
rename a file — and creates `T` with all missing intermediate
directories when `T` is absent, PROVIDED no initial segment of `T` is
already occupied by a staged regular file and `T/n` is not an existing
directory; when `T` itself is a staged regular file the copy instead
overwrites the file at `T`. -/
theorem c10_add_file_placement_amended (fs : FS) (n : String) (b : List Nat)
    (T : List String)
    (hnf : ∀ q ∈ segmentsOf T, isFile fs q = false)
    (hnd : isDir fs (T ++ [n]) = false) :
    (add_file fs n b T).map (fun fs2 => getFile fs2 (T ++ [n])) = .ok (some b)
    ∧ (pathExists fs T = false →
        (add_file fs n b T).map
          (fun fs2 => (segmentsOf T).all (fun q => isDir fs2 q)) = .ok true) := by
  by_cases hex : pathExists fs T = true
  · have hfT : isFile fs T = false := hnf T (self_mem_segmentsOf T)
    have hdT : isDir fs T = true := by
      unfold pathExists at hex
      rcases Bool.or_eq_true_iff.mp hex with h | h
      · exact h
      · exact absurd h (by simp [hfT])
    constructor
    · simp [add_file, hex, shutil_copy, hdT, hnd, Except.map, getFile_setFile]
    · intro hcontra
      exact absurd hex (by simp [hcontra])
  · have hex' : pathExists fs T = false := by
      simpa using hex
    have hany : ((segmentsOf T).any (fun q => isFile fs q)) = false := by
      apply List.any_eq_false.mpr
      intro q hq
      simp [hnf q hq]
    cases hmk : mkdir_parents fs T with
    | error msg =>
      exfalso
      unfold mkdir_parents at hmk
      simp [hex', hany] at hmk
    | ok fs1 =>
      have hmk' : { fs with dirs := fs.dirs ++
          (segmentsOf T).filter (fun q => !isDir fs q) } = fs1 := by
        unfold mkdir_parents at hmk
        simp [hex', hany] at hmk
        exact hmk
      have hfiles1 : fs1.files = fs.files := by
        rw [← hmk']
      have hdirs1 : fs1.dirs = fs.dirs ++
          (segmentsOf T).filter (fun q => !isDir fs q) := by
        rw [← hmk']
      have hdseg : ∀ q ∈ segmentsOf T, isDir fs1 q = true := by
        intro q hq
        unfold isDir
        rw [hdirs1, List.any_append]
        by_cases hdq : isDir fs q = true
        · unfold isDir at hdq
          rw [hdq]
          rfl
        · have hfq : isDir fs q = false := by
            simpa using hdq
          have : ((segmentsOf T).filter (fun q => !isDir fs q)).any
              (fun q' => q' == q) = true := by
            refine List.any_eq_true.mpr ⟨q, ?_, by simp⟩
            refine List.mem_filter.mpr ⟨hq, ?_⟩
            rw [hfq]
            rfl
          rw [this, Bool.or_true]
      have hdT1 : isDir fs1 T = true := hdseg T (self_mem_segmentsOf T)
      have hnd1 : isDir fs1 (T ++ [n]) = false := by
        unfold isDir
        rw [hdirs1, List.any_append]
        have h1 : fs.dirs.any (fun q => q == T ++ [n]) = false := hnd
        have h2 : ((segmentsOf T).filter (fun q => !isDir fs q)).any
            (fun q => q == T ++ [n]) = false := by
          apply List.any_eq_false.mpr
          intro q hq
          have hqs : q ∈ segmentsOf T := (List.mem_filter.mp hq).1
          have hlen : q.length ≤ T.length := length_le_of_mem_segmentsOf hqs
          have : ¬ q = T ++ [n] := by
            intro hcontra
            rw [hcontra] at hlen
            simp at hlen
          simp [this]
        rw [h1, h2]
        rfl
      constructor
      · simp [add_file, hex', hmk, shutil_copy, hdT1, hnd1, Except.map,
          getFile_setFile]
      · intro _
        simp only [add_file, hex', Bool.false_eq_true, if_false, hmk,
          shutil_copy, hdT1, if_true, hnd1, Bool.false_eq_true, if_false,
          Except.map]
        refine congrArg Except.ok ?_
        apply List.all_eq_true.mpr
        intro q hq
        have : isDir (setFile fs1 (T ++ [n]) b) q = isDir fs1 q := by
          unfold isDir
          rw [setFile_dirs]
        simp [this, hdseg q hq]

/-- Witness for the amended C10 on the empty staging tree with a
two-level target directory. -/
theorem c10_add_file_placement_amended_witness :
    (add_file FS.empty "f.py" [9] ["a", "b"]).map
        (fun fs2 => getFile fs2 (["a", "b"] ++ ["f.py"])) = .ok (some [9])
    ∧ (pathExists FS.empty ["a", "b"] = false →
        (add_file FS.empty "f.py" [9] ["a", "b"]).map
          (fun fs2 => (segmentsOf ["a", "b"]).all (fun q => isDir fs2 q)) =
          .ok true) :=
  c10_add_file_placement_amended FS.empty "f.py" [9] ["a", "b"]
    (by decide) (by decide)

/-- In a well-formed staging tree (parents of staged files exist as
directories), no regular file can sit under a directory name that does
not exist yet. -/
theorem isFile_two_level_of_wf (fs : FS) (d sub : String)
    (hwf : ∀ e ∈ fs.files, ∀ i, i < e.1.length → isDir fs (e.1.take i) = true)
    (hnd : isDir fs [d] = false) :
    isFile fs [d, sub] = false := by
  by_contra h
  have h' : isFile fs [d, sub] = true := by simpa using h
  rcases List.any_eq_true.mp h' with ⟨e, he, heq⟩
  have hep : e.1 = [d, sub] := by simpa using heq
  have hlen : 1 < e.1.length := by
    rw [hep]
    simp
  have hdir := hwf e he 1 hlen
  rw [hep] at hdir
  simp only [List.take] at hdir
  rw [hdir] at hnd
  exact Bool.noConfusion hnd

theorem isFile_append_single_ne (l : List (List String × List Nat))
    (e0 : List String × List Nat) (p : List String)
    (h1 : l.any (fun e => e.1 == p) = false) (h2 : (e0.1 == p) = false) :
    (l ++ [e0]).any (fun e => e.1 == p) = false := by
  rw [List.any_append, h1]
  simp [h2]

/-- C1: for every well-formed staged tree, when dist-info construction
succeeds the manifest text consists of one data line per regular file of
the final tree (each of the form `path,sha256=hash,size`) followed by
exactly one final line for the manifest's own relative path with both
the hash and the size fields empty, and the manifest file itself never
appears among the hashed data lines. -/
theorem c1_manifest_lines_and_final_self_line (H : List Nat → List Nat)
    (genName genVersion : String) (w : WheelFile) (fs fs' : FS)
    (hwf : ∀ e ∈ fs.files, ∀ i, i < e.1.length → isDir fs (e.1.take i) = true)
    (hmk : make_dist_info H genName genVersion w fs = .ok fs') :
    getFile fs' (recPathOf w) =
      some (strBytes
        (String.join ((fs'.files.dropLast).map (fun e => recordLine H e.1 e.2)) ++
          pathStr (recPathOf w) ++ ",," ++ "\n"))
    ∧ recPathOf w ∉ (fs'.files.dropLast).map Prod.fst
    ∧ ∀ e ∈ fs'.files.dropLast,
        recordLine H e.1 e.2 =
          pathStr e.1 ++ "," ++ "sha256=" ++ sha_256 H e.2 ++ "," ++
            toString e.2.length ++ "\n" := by
  cases hmkd : mkdir_parents fs [infoDirName w] with
  | error msg =>
    simp only [make_dist_info, List.singleton_append] at hmk
    rw [hmkd] at hmk
    simp at hmk
  | ok fs1 =>
    have hex : pathExists fs [infoDirName w] = false := by
      by_contra hc
      have hc' : pathExists fs [infoDirName w] = true := by simpa using hc
      unfold mkdir_parents at hmkd
      rw [if_pos hc'] at hmkd
      exact Except.noConfusion hmkd
    have hndir : isDir fs [infoDirName w] = false := by
      unfold pathExists at hex
      exact (Bool.or_eq_false_iff.mp hex).1
    have hfiles1 : fs1.files = fs.files := by
      unfold mkdir_parents at hmkd
      rw [if_neg (by simp [hex])] at hmkd
      by_cases hany : ((segmentsOf [infoDirName w]).any (fun q => isFile fs q)) = true
      · rw [if_pos hany] at hmkd
        exact Except.noConfusion hmkd
      · rw [if_neg hany] at hmkd
        injection hmkd with h
        rw [← h]
    have hw0 : isFile fs [infoDirName w, "WHEEL"] = false :=
      isFile_two_level_of_wf fs _ _ hwf hndir
    have hm0 : isFile fs [infoDirName w, "METADATA"] = false :=
      isFile_two_level_of_wf fs _ _ hwf hndir
    have hr0 : isFile fs [infoDirName w, "RECORD"] = false :=
      isFile_two_level_of_wf fs _ _ hwf hndir
    simp only [make_dist_info, hmkd, List.singleton_append,
      Except.ok.injEq] at hmk
    subst hmk
    have hw1 : isFile fs1 [infoDirName w, "WHEEL"] = false := by
      unfold isFile
      rw [hfiles1]
      exact hw0
    have hfs2 : (setFile fs1 [infoDirName w, "WHEEL"]
        (strBytes (wheel_data w genName genVersion))).files =
        fs.files ++ [([infoDirName w, "WHEEL"],
          strBytes (wheel_data w genName genVersion))] := by
      rw [setFile_files_fresh _ _ _ hw1, hfiles1]
    have hne_wm : (([infoDirName w, "WHEEL"] : List String) ==
        [infoDirName w, "METADATA"]) = false := by
      simp
    have hne_wr : (([infoDirName w, "WHEEL"] : List String) ==
        [infoDirName w, "RECORD"]) = false := by
      simp
    have hne_mr : (([infoDirName w, "METADATA"] : List String) ==
        [infoDirName w, "RECORD"]) = false := by
      simp
    have hm1 : isFile (setFile fs1 [infoDirName w, "WHEEL"]
        (strBytes (wheel_data w genName genVersion)))
        [infoDirName w, "METADATA"] = false := by
      unfold isFile
      rw [hfs2]
      exact isFile_append_single_ne _ _ _ hm0 hne_wm
    have hfs3 : (setFile (setFile fs1 [infoDirName w, "WHEEL"]
        (strBytes (wheel_data w genName genVersion)))
        [infoDirName w, "METADATA"] (strBytes w.metadata.raw)).files =
        fs.files ++ [([infoDirName w, "WHEEL"],
          strBytes (wheel_data w genName genVersion))] ++
          [([infoDirName w, "METADATA"], strBytes w.metadata.raw)] := by
      rw [setFile_files_fresh _ _ _ hm1, hfs2]
    have hr1 : isFile (setFile (setFile fs1 [infoDirName w, "WHEEL"]
        (strBytes (wheel_data w genName genVersion)))
        [infoDirName w, "METADATA"] (strBytes w.metadata.raw))
        [infoDirName w, "RECORD"] = false := by
      unfold isFile
      rw [hfs3]
      exact isFile_append_single_ne _ _ _
        (isFile_append_single_ne _ _ _ hr0 hne_wr) hne_mr
    simp only [recPathOf]
    refine ⟨?_, ?_, ?_⟩
    · rw [getFile_setFile, setFile_files_fresh _ _ _ hr1, List.dropLast_concat]
    · rw [setFile_files_fresh _ _ _ hr1, List.dropLast_concat]
      intro hcontra
      rcases List.mem_map.mp hcontra with ⟨e, he, hep⟩
      have : isFile (setFile (setFile fs1 [infoDirName w, "WHEEL"]
          (strBytes (wheel_data w genName genVersion)))
          [infoDirName w, "METADATA"] (strBytes w.metadata.raw))
          [infoDirName w, "RECORD"] = true :=
        (isFile_iff_mem _ _).mpr (List.mem_map.mpr ⟨e, he, hep⟩)
      rw [this] at hr1
      exact Bool.noConfusion hr1
    · intro e _
      rfl

/-- Witness for C1: dist-info construction on the empty staging tree. -/
theorem c1_manifest_lines_and_final_self_line_witness :
    getFile c1result (recPathOf (WheelFile.init "MyDist" "1.0")) =
      some (strBytes
        (String.join ((c1result.files.dropLast).map
            (fun e => recordLine (fun _ => List.replicate 32 0) e.1 e.2)) ++
          pathStr (recPathOf (WheelFile.init "MyDist" "1.0")) ++ ",," ++ "\n"))
    ∧ recPathOf (WheelFile.init "MyDist" "1.0") ∉
        (c1result.files.dropLast).map Prod.fst
    ∧ ∀ e ∈ c1result.files.dropLast,
        recordLine (fun _ => List.replicate 32 0) e.1 e.2 =
          pathStr e.1 ++ "," ++ "sha256=" ++
            sha_256 (fun _ => List.replicate 32 0) e.2 ++ "," ++
            toString e.2.length ++ "\n" :=
  c1_manifest_lines_and_final_self_line (fun _ => List.replicate 32 0)
    "friendly_dist_manager" "0.0.1" (WheelFile.init "MyDist" "1.0")
    FS.empty c1result (by decide) rfl
